import Mathlib

/-!
Verification of the conary package manager core against its specification.

The Rust sources are shallowly embedded: SQLite tables become Lists of row
structures, connections become explicit state passing, fallible operations
return Except.  Modules that are not part of the sources at hand
(src/version.rs, src/resolver.rs, src/filesystem.rs, src/repository/selector.rs,
and the db::transaction helper) are modelled from the specification text; each
such definition carries a doc comment starting with "Modelled from the spec:".
-/

/-- Decidable equality of `Except` results, used to evaluate the embedded
commands at concrete inputs. -/
instance {ε α : Type} [DecidableEq ε] [DecidableEq α] : DecidableEq (Except ε α) := fun a b =>
  match a, b with
  | .ok x, .ok y =>
    if h : x = y then isTrue (by rw [h]) else isFalse (fun hc => by cases hc; exact h rfl)
  | .error x, .error y =>
    if h : x = y then isTrue (by rw [h]) else isFalse (fun hc => by cases hc; exact h rfl)
  | .ok _, .error _ => isFalse (fun hc => by cases hc)
  | .error _, .ok _ => isFalse (fun hc => by cases hc)

namespace Conary

/-! ## Version semantics

Modelled from the spec (§4.6): `src/version.rs` (RpmVersion) is not among the
sources; only its callers in main.rs are.  A version has the shape
`[epoch:]upstream[-release]`; epoch is numeric (absent = 0), upstream and
release are compared by alternating digit / non-digit runs, digit runs
numerically with leading zeros ignored, non-digit runs char-by-char with
case-insensitive letters sorting before separators and `~` sorting before
everything including end-of-string; an absent release equals "0". -/

/-- Lexicographic comparison of two character lists by raw character order. -/
def cmpLex : List Char → List Char → Ordering
  | [], [] => .eq
  | [], _ :: _ => .lt
  | _ :: _, [] => .gt
  | a :: as, b :: bs =>
    match compare a b with
    | .eq => cmpLex as bs
    | o => o

/-- Numeric comparison of two digit runs: leading zeros ignored, then by
length, then lexicographically. -/
def cmpDigitRun (a b : List Char) : Ordering :=
  let a := a.dropWhile (· = '0')
  let b := b.dropWhile (· = '0')
  match compare a.length b.length with
  | .eq => cmpLex a b
  | o => o

/-- Modelled from the spec: segment-wise comparison of upstream/release
strings (§4.6).  `fuel` bounds the recursion; any fuel larger than the sum of
the lengths yields the final answer. -/
def cmpVerChars : Nat → List Char → List Char → Ordering
  | 0, _, _ => .eq
  | fuel + 1, a, b =>
    match a, b with
    | [], [] => .eq
    | '~' :: as, '~' :: bs => cmpVerChars fuel as bs
    | '~' :: _, _ => .lt
    | _, '~' :: _ => .gt
    | [], _ :: _ => .lt
    | _ :: _, [] => .gt
    | c :: cs, d :: ds =>
      if c.isDigit && d.isDigit then
        let ra := (c :: cs).takeWhile (·.isDigit)
        let rb := (d :: ds).takeWhile (·.isDigit)
        match cmpDigitRun ra rb with
        | .eq => cmpVerChars fuel ((c :: cs).dropWhile (·.isDigit)) ((d :: ds).dropWhile (·.isDigit))
        | o => o
      else if c.isDigit then .gt
      else if d.isDigit then .lt
      else
        let ka : Nat := if c.isAlpha then 0 else 1
        let kb : Nat := if d.isAlpha then 0 else 1
        if ka ≠ kb then compare ka kb
        else if c.isAlpha then
          match compare c.toLower d.toLower with
          | .eq => cmpVerChars fuel cs ds
          | o => o
        else cmpVerChars fuel cs ds

/-- Modelled from the spec: a parsed version (§4.6). -/
structure RpmVersion where
  epoch : Nat
  upstream : List Char
  release : List Char
deriving DecidableEq, Repr

/-- Split a character list at the first occurrence of `c`. -/
def splitFirst (c : Char) : List Char → Option (List Char × List Char)
  | [] => none
  | x :: xs =>
    if x = c then some ([], xs)
    else match splitFirst c xs with
      | some (pre, post) => some (x :: pre, post)
      | none => none

/-- Split a character list at the last occurrence of `c`. -/
def splitLast (c : Char) (l : List Char) : Option (List Char × List Char) :=
  match splitFirst c l.reverse with
  | some (post, pre) => some (pre.reverse, post.reverse)
  | none => none

/-- Digit characters to a natural number. -/
def charsToNat (l : List Char) : Nat :=
  l.foldl (fun n c => n * 10 + (c.toNat - '0'.toNat)) 0

/-- Modelled from the spec: parse `[epoch:]upstream[-release]`.  A non-numeric
or empty epoch field, or an empty string, fails to parse (the spec's
`VersionParse` failure). -/
def RpmVersion.parse (s : String) : Option RpmVersion :=
  let cs := s.toList
  if cs = [] then none
  else
    let epochRest : Option (Nat × List Char) :=
      match splitFirst ':' cs with
      | some (e, rest) =>
        if e ≠ [] && e.all (·.isDigit) then some (charsToNat e, rest) else none
      | none => some (0, cs)
    match epochRest with
    | none => none
    | some (epoch, rest) =>
      if rest = [] then none
      else
        match splitLast '-' rest with
        | some (u, r) => some ⟨epoch, u, r⟩
        | none => some ⟨epoch, rest, ['0']⟩

/-- Modelled from the spec: total comparison — epoch first, then upstream,
then release (§4.6). -/
def RpmVersion.cmp (a b : RpmVersion) : Ordering :=
  match compare a.epoch b.epoch with
  | .eq =>
    match cmpVerChars (a.upstream.length + b.upstream.length + 1) a.upstream b.upstream with
    | .eq => cmpVerChars (a.release.length + b.release.length + 1) a.release b.release
    | o => o
  | o => o

/-! ## Catalog data model

Rows of the SQLite tables created by src/db/schema.rs, restricted to the
columns the claims refer to.  `id` columns are `Nat` (AUTOINCREMENT values);
timestamps are `Nat` stand-ins for CURRENT_TIMESTAMP. -/

/-- Changeset status (db/models.rs `ChangesetStatus`). -/
inductive ChangesetStatus
  | pending
  | applied
  | rolledBack
deriving DecidableEq, Repr

/-- A row of `changesets` (schema v1 + the v2 `reversed_by_changeset_id`). -/
structure Changeset where
  id : Nat
  description : String
  status : ChangesetStatus
  createdAt : Option Nat := none
  appliedAt : Option Nat := none
  rolledBackAt : Option Nat := none
  reversedBy : Option Nat := none
deriving DecidableEq, Repr

/-- A row of `troves`.  Columns `type`, `description` and `installed_at` are
not referenced by any claim and are omitted. -/
structure Trove where
  id : Nat
  name : String
  version : String
  arch : Option String
  installedBy : Option Nat
deriving DecidableEq, Repr

/-- A row of `files` (`owner`/`group_name`/`installed_at` omitted). -/
structure FileRow where
  path : String
  hash : String
  size : Nat
  mode : Nat
  troveId : Nat
deriving DecidableEq, Repr

/-- A row of `dependencies`. -/
structure DepRow where
  troveId : Nat
  dependsOnName : String
  dependsOnVersion : Option String
  depType : String
deriving DecidableEq, Repr

/-- A row of `file_contents` (`stored_at` omitted). -/
structure ContentRow where
  hash : String
  contentPath : String
  size : Nat
deriving DecidableEq, Repr

/-- A row of `file_history`.  The schema (v3) declares a `previous_hash`
column; it is part of the row model so that what the engine writes there can
be stated. -/
structure HistoryRow where
  changesetId : Nat
  path : String
  hash : Option String
  action : String
  previousHash : Option String
deriving DecidableEq, Repr

/-- The installed-state portion of the database. -/
structure Catalog where
  changesets : List Changeset
  troves : List Trove
  files : List FileRow
  deps : List DepRow
  fileContents : List ContentRow
  fileHistory : List HistoryRow
  nextChangesetId : Nat
  nextTroveId : Nat
deriving DecidableEq, Repr

/-- The install root: an association of absolute paths to file contents. -/
abbrev Disk := List (String × String)

/-- Modelled from the spec: FileDeployer.exists (src/filesystem.rs is not
among the sources) — presence of a path under the install root. -/
def Disk.hasFile (d : Disk) (p : String) : Bool :=
  d.any (·.1 = p)

/-- Modelled from the spec: FileDeployer.deploy — write content at a path,
overwriting any previous file there (atomic rename into place). -/
def Disk.write (d : Disk) (p c : String) : Disk :=
  (p, c) :: d.filter (·.1 ≠ p)

/-- Modelled from the spec: FileDeployer.remove — unlink a path. -/
def Disk.removeFile (d : Disk) (p : String) : Disk :=
  d.filter (·.1 ≠ p)

/-- `Trove::find_by_id` (db/models.rs): SELECT ... WHERE id = ?. -/
def Catalog.findTroveById (cat : Catalog) (id : Nat) : Option Trove :=
  cat.troves.find? (·.id = id)

/-- `Trove::find_by_name` (db/models.rs): SELECT ... WHERE name = ?. -/
def Catalog.findTrovesByName (cat : Catalog) (n : String) : List Trove :=
  cat.troves.filter (·.name = n)

/-- `FileEntry::find_by_path` (db/models.rs): SELECT ... WHERE path = ?. -/
def Catalog.findFileByPath (cat : Catalog) (p : String) : Option FileRow :=
  cat.files.find? (·.path = p)

/-- `Changeset::find_by_id` (db/models.rs). -/
def Catalog.findChangesetById (cat : Catalog) (id : Nat) : Option Changeset :=
  cat.changesets.find? (·.id = id)

/-- `Trove::delete` (db/models.rs) with the schema's ON DELETE CASCADE to
`files` and `dependencies`. -/
def Catalog.deleteTroveCascade (cat : Catalog) (id : Nat) : Catalog :=
  { cat with
    troves := cat.troves.filter (·.id ≠ id)
    files := cat.files.filter (·.troveId ≠ id)
    deps := cat.deps.filter (·.troveId ≠ id) }

/-! ## Error taxonomy

The errors the embedded commands can produce.  In the source these are
`conary::Error` values or `anyhow` messages; only the kind matters here. -/

inductive EngineError
  | alreadyInstalled (name version : String)
  | downgrade (name oldVersion newVersion : String)
  | fileConflictOwned (path owner : String)
  | fileConflictOrphan (path : String)
  | uniqueViolation (table : String)
  | notInstalled (name : String)
  | multipleVersions (name : String)
  | dependenciesWouldBreak (name : String) (count : Nat)
  | changesetNotFound (id : Nat)
  | alreadyRolledBack (id : Nat)
  | pendingChangeset (id : Nat)
  | noTrovesForChangeset
deriving DecidableEq, Repr

/-! ## Parsed packages

What the per-format parsers hand the engine (out of scope per §1): name,
version, arch, extracted files and declared dependencies. -/

/-- `packages::traits::DependencyType`. -/
inductive DependencyType
  | runtime
  | build
  | optional
deriving DecidableEq, Repr

/-- The string the engine stores for a dependency type (main.rs match). -/
def DependencyType.asStr : DependencyType → String
  | .runtime => "runtime"
  | .build => "build"
  | .optional => "optional"

/-- One extracted file of a parsed package. -/
structure PkgFile where
  path : String
  content : String
  size : Nat
  mode : Nat
deriving DecidableEq, Repr

/-- One declared dependency of a parsed package. -/
structure PkgDep where
  name : String
  version : Option String
  depType : DependencyType
deriving DecidableEq, Repr

/-- A parsed package as the engine sees it. -/
structure ParsedPackage where
  name : String
  version : String
  arch : Option String
  files : List PkgFile
  deps : List PkgDep
deriving DecidableEq, Repr

/-- `objects/<first two hex chars>/<rest>` — the content_path string written
into `file_contents` (main.rs format! call). -/
def contentPathOf (hash : String) : String :=
  "objects/" ++ String.mk (hash.data.take 2) ++ "/" ++ String.mk (hash.data.drop 2)

/-! ## Install: pre-transaction classification (main.rs 668-717)

The loop over `Trove::find_by_name` results that decides fresh install vs
upgrade vs rejection.  `hash` functions, connections and logging are elided;
the SHA-256 function itself is a parameter `h` of the file-processing code. -/

/-- The body of the classification loop: walks the existing troves carrying
the `old_trove_to_upgrade` accumulator. -/
def classifyGo (version : String) (arch : Option String) (name : String) :
    List Trove → Option Trove → Except EngineError (Option Trove)
  | [], acc => .ok acc
  | t :: rest, acc =>
    if t.arch = arch then
      if t.version = version then
        .error (.alreadyInstalled name version)
      else
        match RpmVersion.parse t.version, RpmVersion.parse version with
        | some oldV, some newV =>
          if RpmVersion.cmp newV oldV = .gt then
            classifyGo version arch name rest (some t)
          else
            .error (.downgrade name t.version version)
        | _, _ =>
          -- "Version parsing failed - allow installation but warn"
          classifyGo version arch name rest acc
    else classifyGo version arch name rest acc

/-- Pre-transaction validation and upgrade detection of `Commands::Install`. -/
def classifyInstall (cat : Catalog) (name version : String) (arch : Option String) :
    Except EngineError (Option Trove) :=
  classifyGo version arch name (cat.findTrovesByName name) none

/-! ## Install: the changeset transaction (main.rs 316-416 and 733-836)

Both `install_package_from_file` and the `Commands::Install` body run the same
transaction, differing only in the orphan branch of the conflict check:
`install_package_from_file` tolerates an untracked on-disk file when
`old_trove` is `Some` (an upgrade), while the `Commands::Install` body always
rejects it.  `h` is the SHA-256 function of the content-addressed store. -/

/-- The conflict-detection head of the per-file loop (main.rs 764-785 and
346-365): an on-disk path owned by a different package is a file conflict; an
on-disk path tracked by no package is an orphan conflict, tolerated only by
`install_package_from_file` during an upgrade. -/
def conflictCheck (tolerateOrphan : Bool) (pkgName : String) (cat : Catalog)
    (disk : Disk) (path : String) : Option EngineError :=
  if disk.hasFile path then
    match cat.findFileByPath path with
    | some existing =>
      match cat.findTroveById existing.troveId with
      | some owner =>
        if owner.name ≠ pkgName then some (.fileConflictOwned path owner.name)
        else none
      | none => none
    | none =>
      if tolerateOrphan then none else some (.fileConflictOrphan path)
  else none

/-- `INSERT OR IGNORE INTO file_contents`: insert-if-absent on the hash
primary key. -/
def insertFileContentIfAbsent (hash : String) (size : Nat) (cat : Catalog) : Catalog :=
  if cat.fileContents.any (·.hash = hash) then cat
  else { cat with fileContents :=
    cat.fileContents ++ [({ hash := hash, contentPath := contentPathOf hash, size := size } : ContentRow)] }

/-- `FileEntry::insert` under the schema's UNIQUE path column. -/
def insertFileRow (path hash : String) (size mode tid : Nat) (cat : Catalog) :
    Except EngineError Catalog :=
  if cat.files.any (·.path = path) then .error (.uniqueViolation "files")
  else .ok { cat with files :=
    cat.files ++ [({ path := path, hash := hash, size := size, mode := mode, troveId := tid } : FileRow)] }

/-- Per-file step of the install transaction: conflict check, `INSERT OR
IGNORE` into `file_contents`, insert into `files` (path UNIQUE), insert into
`file_history`.  The history INSERT names only the columns
(changeset_id, path, sha256_hash, action); `previous_hash` takes the schema
default NULL. -/
def installFileStep (h : String → String) (tolerateOrphan : Bool) (pkgName : String)
    (csId troveId : Nat) (disk : Disk) (cat : Catalog) (file : PkgFile) :
    Except EngineError Catalog :=
  match conflictCheck tolerateOrphan pkgName cat disk file.path with
  | some e => .error e
  | none =>
    let hash := h file.content
    let cat1 := insertFileContentIfAbsent hash file.size cat
    match insertFileRow file.path hash file.size file.mode troveId cat1 with
    | .error e => .error e
    | .ok cat2 =>
      let action := if disk.hasFile file.path then "modify" else "add"
      .ok { cat2 with fileHistory :=
        cat2.fileHistory ++ [({ changesetId := csId, path := file.path, hash := some hash,
                                action := action, previousHash := none } : HistoryRow)] }

/-- Process the extracted files in order, aborting on the first error. -/
def installFiles (h : String → String) (tolerateOrphan : Bool) (pkgName : String)
    (csId troveId : Nat) (disk : Disk) :
    List PkgFile → Catalog → Except EngineError Catalog
  | [], cat => .ok cat
  | f :: rest, cat =>
    match installFileStep h tolerateOrphan pkgName csId troveId disk cat f with
    | .error e => .error e
    | .ok cat' => installFiles h tolerateOrphan pkgName csId troveId disk rest cat'

/-- Insert the declared dependencies (main.rs dependency loop). -/
def installDeps (troveId : Nat) (deps : List PkgDep) (cat : Catalog) : Catalog :=
  { cat with deps :=
      cat.deps ++ deps.map (fun d => ⟨troveId, d.name, d.version, d.depType.asStr⟩) }

/-- `Changeset::update_status` to `applied`: one UPDATE setting status and
`applied_at = CURRENT_TIMESTAMP`. -/
def applyChangeset (csId now : Nat) (cat : Catalog) : Catalog :=
  { cat with changesets := cat.changesets.map (fun c =>
      if c.id = csId then { c with status := .applied, appliedAt := some now } else c) }

/-- The changeset description of an install or upgrade (main.rs 735-744). -/
def changesetDescFor (oldTrove : Option Trove) (pkg : ParsedPackage) : String :=
  match oldTrove with
  | some old => "Upgrade " ++ pkg.name ++ " from " ++ old.version ++ " to " ++ pkg.version
  | none => "Install " ++ pkg.name ++ "-" ++ pkg.version

/-- `Changeset::insert`: a pending changeset with the next id; `created_at`
takes the schema default CURRENT_TIMESTAMP. -/
def insertPendingChangeset (desc : String) (now : Nat) (cat : Catalog) : Catalog :=
  { cat with
    changesets := cat.changesets ++
      [({ id := cat.nextChangesetId, description := desc, status := .pending,
          createdAt := some now } : Changeset)]
    nextChangesetId := cat.nextChangesetId + 1 }

/-- `Trove::insert` under UNIQUE(name, version, architecture); SQLite treats
NULL architecture rows as distinct, so only a `some` architecture can
collide. -/
def insertTroveRow (pkg : ParsedPackage) (csId : Nat) (cat : Catalog) :
    Except EngineError Catalog :=
  if cat.troves.any (fun t =>
      t.name = pkg.name ∧ t.version = pkg.version ∧ t.arch = pkg.arch ∧ pkg.arch.isSome) then
    .error (.uniqueViolation "troves")
  else
    .ok { cat with
      troves := cat.troves ++
        [({ id := cat.nextTroveId, name := pkg.name, version := pkg.version,
            arch := pkg.arch, installedBy := some csId } : Trove)]
      nextTroveId := cat.nextTroveId + 1 }

/-- The install transaction (main.rs 733-836 and 316-416).  Modelled from the
spec: `db::transaction` is not among the sources (only its callers are); per
§4.1 an error from the body aborts and rolls back, so an `.error` result
stands for an unchanged store. -/
def installTx (h : String → String) (tolerateOrphan : Bool) (oldTrove : Option Trove)
    (pkg : ParsedPackage) (now : Nat) (disk : Disk) (cat0 : Catalog) :
    Except EngineError Catalog :=
  let csId := cat0.nextChangesetId
  let cat1 := insertPendingChangeset (changesetDescFor oldTrove pkg) now cat0
  let cat2 :=
    match oldTrove with
    | some old => cat1.deleteTroveCascade old.id
    | none => cat1
  let troveId := cat2.nextTroveId
  match insertTroveRow pkg csId cat2 with
  | .error e => .error e
  | .ok cat3 =>
    match installFiles h tolerateOrphan pkg.name csId troveId disk pkg.files cat3 with
    | .error e => .error e
    | .ok cat4 => .ok (applyChangeset csId now (installDeps troveId pkg.deps cat4))

/-- Post-commit deployment: the Deployer writes every extracted file under the
install root (main.rs deploy loop). -/
def deployFiles (files : List PkgFile) (disk : Disk) : Disk :=
  files.foldl (fun d f => d.write f.path f.content) disk

/-- The `Commands::Install` pipeline from pre-transaction validation onward:
classify, run the transaction (orphans always rejected in this path), then
deploy.  Errors leave catalog and disk unchanged (pre-transaction errors occur
before any write; transaction errors roll back). -/
def runInstallCmd (h : String → String) (pkg : ParsedPackage) (now : Nat)
    (cat : Catalog) (disk : Disk) : Except EngineError Unit × Catalog × Disk :=
  match classifyInstall cat pkg.name pkg.version pkg.arch with
  | .error e => (.error e, cat, disk)
  | .ok oldTrove =>
    match installTx h false oldTrove pkg now disk cat with
    | .error e => (.error e, cat, disk)
    | .ok cat' => (.ok (), cat', deployFiles pkg.files disk)

/-- `install_package_from_file` (main.rs 279-427): same transaction but the
orphan conflict is tolerated when `old_trove` is `Some`, then deploy. -/
def installPackageFromFile (h : String → String) (oldTrove : Option Trove)
    (pkg : ParsedPackage) (now : Nat) (cat : Catalog) (disk : Disk) :
    Except EngineError Unit × Catalog × Disk :=
  match installTx h oldTrove.isSome oldTrove pkg now disk cat with
  | .error e => (.error e, cat, disk)
  | .ok cat' => (.ok (), cat', deployFiles pkg.files disk)

/-! ## Remove (main.rs 861-938) -/

/-- Modelled from the spec: `Resolver::check_removal` / what_breaks (§4.4);
src/resolver.rs is not among the sources.  All Dependency rows whose
`depends_on_name` equals the name and whose trove is currently installed,
projected to the distinct dependent trove names. -/
def whatBreaks (cat : Catalog) (name : String) : List String :=
  (((cat.deps.filter (·.dependsOnName = name)).filterMap
      (fun d => (cat.findTroveById d.troveId).map (·.name)))).dedup

/-- The `Commands::Remove` pipeline: reverse-dependency refusal, then one
transaction inserting a "Remove <n>-<v>" changeset, cascade-deleting the
trove and marking the changeset applied.  The source ends with
"TODO: Actually delete files from filesystem (Phase 6)", so the disk is
returned unchanged. -/
def runRemove (cat : Catalog) (disk : Disk) (name : String) (now : Nat) :
    Except EngineError Unit × Catalog × Disk :=
  match cat.findTrovesByName name with
  | [] => (.error (.notInstalled name), cat, disk)
  | [trove] =>
    let breaking := whatBreaks cat name
    if breaking.isEmpty then
      let csId := cat.nextChangesetId
      let desc := "Remove " ++ trove.name ++ "-" ++ trove.version
      let cat1 := { cat with
        changesets := cat.changesets ++ [({ id := csId, description := desc, status := .pending, createdAt := some now } : Changeset)]
        nextChangesetId := csId + 1 }
      let cat2 := cat1.deleteTroveCascade trove.id
      let cat3 := applyChangeset csId now cat2
      (.ok (), cat3, disk)
    else (.error (.dependenciesWouldBreak name breaking.length), cat, disk)
  | _ => (.error (.multipleVersions name), cat, disk)

/-! ## Rollback (main.rs 1011-1129) -/

/-- The transactional body of `Commands::Rollback` (main.rs 1060-1115), for a
changeset that passed the status checks and installed at least one trove:
insert the "Rollback of changeset <id> (<desc>)" changeset, cascade-delete
every trove installed by the original changeset, mark the rollback changeset
applied, and mark the original rolled_back with `rolled_back_at` and
`reversed_by_changeset_id` set. -/
def rollbackTx (cat : Catalog) (changeset : Changeset) (csId now : Nat) : Catalog :=
  let rId := cat.nextChangesetId
  let desc := "Rollback of changeset " ++ toString csId ++ " (" ++ changeset.description ++ ")"
  let cat1 := { cat with
    changesets := cat.changesets ++
      [({ id := rId, description := desc, status := .pending, createdAt := some now } : Changeset)]
    nextChangesetId := rId + 1 }
  let cat2 := (cat.troves.filter (·.installedBy = some csId)).foldl
    (fun c t => c.deleteTroveCascade t.id) cat1
  let cat3 := applyChangeset rId now cat2
  { cat3 with changesets := cat3.changesets.map (fun c =>
      if c.id = csId then
        { c with status := .rolledBack, rolledBackAt := some now, reversedBy := some rId }
      else c) }

/-- The post-commit filesystem pass of `Commands::Rollback` (main.rs
1117-1124): remove every path whose file_history row for the changeset has
action add or modify. -/
def rollbackRemovePaths (hist : List HistoryRow) (csId : Nat) (disk : Disk) : Disk :=
  ((hist.filter (·.changesetId = csId)).map (fun r => (r.path, r.action))).foldl
    (fun d pr => if pr.2 = "add" ∨ pr.2 = "modify" then d.removeFile pr.1 else d) disk

/-- The `Commands::Rollback` pipeline: status checks, then the transaction,
then the post-commit path removal. -/
def runRollback (cat : Catalog) (disk : Disk) (csId now : Nat) :
    Except EngineError Unit × Catalog × Disk :=
  match cat.findChangesetById csId with
  | none => (.error (.changesetNotFound csId), cat, disk)
  | some changeset =>
    if changeset.status = .rolledBack then (.error (.alreadyRolledBack csId), cat, disk)
    else if changeset.status = .pending then (.error (.pendingChangeset csId), cat, disk)
    else
      if (cat.troves.filter (·.installedBy = some csId)).isEmpty then
        (.error .noTrovesForChangeset, cat, disk)
      else
        (.ok (), rollbackTx cat changeset csId now,
         rollbackRemovePaths cat.fileHistory csId disk)

/-! ## Database initialization and migrations (db/mod.rs, db/schema.rs)

The SQLite file state observable through the embedded operations: pragma
settings, the set of created tables, and the rows of `schema_version`. -/

/-- Observable state of the SQLite database file. -/
structure SqliteDb where
  tables : List String
  schemaVersions : List Nat
  journalMode : String
  synchronous : String
  foreignKeys : Bool
  busyTimeoutMs : Nat
deriving DecidableEq, Repr

/-- A freshly created, empty database file. -/
def SqliteDb.fresh : SqliteDb :=
  { tables := []
    schemaVersions := []
    journalMode := "delete"
    synchronous := "full"
    foreignKeys := false
    busyTimeoutMs := 0 }

/-- Result of `db::init`: whether parent directories were created, plus the
resulting database state. -/
structure InitResult where
  createdParentDirs : Bool
  db : SqliteDb
deriving DecidableEq, Repr

/-- `db::init` (db/mod.rs 28-55): create parent directories, open/create the
database, then `PRAGMA journal_mode = WAL; PRAGMA synchronous = NORMAL;
PRAGMA foreign_keys = ON; PRAGMA busy_timeout = 5000`.  Nothing else: the
source ends with "Schema creation will be added in Phase 2". -/
def dbInit (db : SqliteDb) : InitResult :=
  { createdParentDirs := true
    db := { db with
      journalMode := "wal"
      synchronous := "normal"
      foreignKeys := true
      busyTimeoutMs := 5000 } }

/-- `SCHEMA_VERSION` (db/schema.rs). -/
def SCHEMA_VERSION : Nat := 4

/-- `init_schema_version`: CREATE TABLE IF NOT EXISTS schema_version. -/
def initSchemaVersionTable (db : SqliteDb) : SqliteDb :=
  if db.tables.contains "schema_version" then db
  else { db with tables := db.tables ++ ["schema_version"] }

/-- `get_schema_version`: highest recorded version, defaulting to 0. -/
def getSchemaVersion (db : SqliteDb) : Nat :=
  db.schemaVersions.foldl max 0

/-- Tables created by each migration (db/schema.rs migrate_v1..migrate_v4;
v2 only ALTERs `changesets`). -/
def migrationTables : Nat → List String
  | 1 => ["troves", "changesets", "files", "flavors", "provenance", "dependencies"]
  | 2 => []
  | 3 => ["file_contents", "file_history"]
  | 4 => ["repositories", "repository_packages"]
  | _ => []

/-- `apply_migration` followed by `set_schema_version`. -/
def applyMigrationStep (db : SqliteDb) (v : Nat) : SqliteDb :=
  { db with
    tables := db.tables ++ migrationTables v
    schemaVersions := db.schemaVersions ++ [v] }

/-- `schema::migrate` (db/schema.rs 52-73): read the current version; if
already at `SCHEMA_VERSION` do nothing; otherwise apply each missing version
in increasing order, recording it. -/
def migrate (db0 : SqliteDb) : SqliteDb :=
  let db := initSchemaVersionTable db0
  let current := getSchemaVersion db
  if current ≥ SCHEMA_VERSION then db
  else (List.range' (current + 1) (SCHEMA_VERSION - current)).foldl applyMigrationStep db

/-! ## Repositories and repository packages (db/models.rs, repository/mod.rs) -/

/-- A row of `repositories` (`gpg_key_url`, `created_at` omitted). -/
structure Repository where
  id : Nat
  name : String
  url : String
  enabled : Bool
  priority : Int
  metadataExpire : Nat
  lastSync : Option String
deriving DecidableEq, Repr

/-- A row of `repository_packages` (`id`, `metadata`, `synced_at` omitted —
no claim refers to them). -/
structure RepoPkgRow where
  repositoryId : Nat
  name : String
  version : String
  architecture : Option String
  description : Option String
  checksum : String
  size : Nat
  downloadUrl : String
  dependencies : Option String
deriving DecidableEq, Repr

/-- The repository-index portion of the database. -/
structure RepoDb where
  repositories : List Repository
  repositoryPackages : List RepoPkgRow
deriving DecidableEq, Repr

/-! ## Search (db/models.rs 956-971, repository/mod.rs 624-627) -/

/-- ASCII lower-casing, the collation SQLite applies to LIKE. -/
def asciiLower (c : Char) : Char :=
  if 'A' ≤ c ∧ c ≤ 'Z' then Char.ofNat (c.toNat + 32) else c

/-- SQLite `LIKE '%pattern%'`: substring containment, case-insensitively for
ASCII letters. -/
def likeContains (s pat : String) : Bool :=
  decide ((pat.data.map asciiLower) <:+: (s.data.map asciiLower))

/-- The WHERE clause of `RepositoryPackage::search`:
`name LIKE ?1 OR description LIKE ?1` (a NULL description never matches). -/
def searchMatches (pat : String) (r : RepoPkgRow) : Bool :=
  likeContains r.name pat ||
    (match r.description with
     | some d => likeContains d pat
     | none => false)

/-- The ORDER BY key of `RepositoryPackage::search`: `ORDER BY name, version`
(SQLite BINARY collation: byte order, embedded here as character-list
lexicographic order). -/
def nameVersionLe (a b : RepoPkgRow) : Prop :=
  a.name.data < b.name.data ∨ (a.name.data = b.name.data ∧ a.version.data ≤ b.version.data)

instance : DecidableRel nameVersionLe := fun a b => by
  unfold nameVersionLe
  exact inferInstance

/-- `RepositoryPackage::search`: filter by the LIKE clause, then ORDER BY
(name, version).  SQL leaves the relative order of ORDER-BY ties unspecified;
a stable sort is the determinization used here. -/
def searchPackages (rows : List RepoPkgRow) (pat : String) : List RepoPkgRow :=
  (rows.filter (searchMatches pat)).insertionSort nameVersionLe

/-! ## Repository sync (repository/mod.rs 252-346 and 349-427)

Both `sync_repository_native` and the JSON fallback inside `sync_repository`
perform the same database pass: delete every `repository_packages` row of the
repository, insert one row per parsed package, then update `last_sync`.
Fetching and parsing are external (HTTP + format parsers); the parsed package
list is therefore an input. -/

/-- A parsed dependency of repository metadata (parsers::Dependency —
name and optional constraint). -/
structure MetaDep where
  name : String
  constraint : Option String
deriving DecidableEq, Repr

/-- A package record parsed from repository metadata. -/
structure PkgMeta where
  name : String
  version : String
  architecture : Option String
  description : Option String
  checksum : String
  size : Nat
  downloadUrl : String
  dependencies : List MetaDep
deriving DecidableEq, Repr

/-- The `deps_json` column value built in sync_repository_native: `None` for
an empty list, otherwise the serialized `"name constraint"` strings (the JSON
wrapping is abstracted to an intercalated string). -/
def depsJsonOf (deps : List MetaDep) : Option String :=
  if deps.isEmpty then none
  else some (String.intercalate "," (deps.map (fun d =>
    match d.constraint with
    | some c => d.name ++ " " ++ c
    | none => d.name)))

/-- `RepositoryPackage::new` plus the field assignments of the sync loop. -/
def toRepoPkgRow (rid : Nat) (p : PkgMeta) : RepoPkgRow :=
  { repositoryId := rid
    name := p.name
    version := p.version
    architecture := p.architecture
    description := p.description
    checksum := p.checksum
    size := p.size
    downloadUrl := p.downloadUrl
    dependencies := depsJsonOf p.dependencies }

/-- `RepositoryPackage::insert` under the v4 UNIQUE index
(repository_id, name, version, architecture); SQLite treats rows with a NULL
architecture as distinct, so only a `some` architecture can collide. -/
def insertRepoPkg (db : RepoDb) (r : RepoPkgRow) : Except EngineError RepoDb :=
  if db.repositoryPackages.any (fun q =>
      q.repositoryId = r.repositoryId ∧ q.name = r.name ∧ q.version = r.version ∧
      q.architecture = r.architecture ∧ r.architecture.isSome) then
    .error (.uniqueViolation "repository_packages")
  else
    .ok { db with repositoryPackages := db.repositoryPackages ++ [r] }

/-- The insert loop of the sync pass, counting successful inserts. -/
def insertRepoPkgs : List RepoPkgRow → RepoDb → Nat → Except EngineError (RepoDb × Nat)
  | [], db, count => .ok (db, count)
  | r :: rest, db, count =>
    match insertRepoPkg db r with
    | .error e => .error e
    | .ok db' => insertRepoPkgs rest db' (count + 1)

/-- The database pass of `sync_repository_native` (and of the JSON fallback):
`RepositoryPackage::delete_by_repository`, insert one row per parsed package,
set `repo.last_sync` and persist it with `Repository::update`. -/
def syncRepositoryNative (db : RepoDb) (repo : Repository) (pkgs : List PkgMeta)
    (now : String) : Except EngineError (RepoDb × Nat) :=
  let db1 := { db with repositoryPackages :=
    db.repositoryPackages.filter (·.repositoryId ≠ repo.id) }
  match insertRepoPkgs (pkgs.map (toRepoPkgRow repo.id)) db1 0 with
  | .error e => .error e
  | .ok (db2, count) =>
    let repo' := { repo with lastSync := some now }
    .ok ({ db2 with repositories :=
            db2.repositories.map (fun r => if r.id = repo.id then repo' else r) },
         count)

/-! ## Transitive dependency resolution (repository/mod.rs 687-827) -/

/-- The chosen provider for a dependency: `PackageWithRepo` restricted to the
fields the resolver reads (`package.version`, `parse_dependencies()`,
`repository.name`). -/
structure PackageWithRepo where
  name : String
  version : String
  deps : List String
  repoName : String
deriving DecidableEq, Repr

/-- Modelled from the spec: `PackageSelector::find_best_package`
(src/repository/selector.rs is not among the sources).  §4.4 chooses the
provider with maximum (repository priority, parsed version); the inputs used
below carry one provider per name, for which selection reduces to lookup. -/
def findBestPackage (available : List PackageWithRepo) (name : String) :
    Option PackageWithRepo :=
  available.find? (·.name = name)

/-- rpmlib pseudo-dependencies and file-path dependencies are skipped when
seeding the queue. -/
def skipDep (d : String) : Bool :=
  decide (d.data.take 7 = "rpmlib(".data) || decide (d.data.take 1 = "/".data)

/-- Resolution errors.  `outOfFuel` marks an exhausted recursion bound and
never arises at the bounds used below. -/
inductive ResolveError
  | depNotFound (name : String)
  | outOfFuel
deriving DecidableEq, Repr

/-- The BFS work loop of `resolve_dependencies_transitive`: pop the front of
the queue; a dependency beyond `maxDepth` is skipped with a warning; visited,
installed and already-chosen names are skipped; otherwise the provider is
looked up (an absent provider aborts resolution), its dependencies are
enqueued one level deeper, and the package is appended to the chosen list.
The Rust `HashMap` accumulator is modelled as an insertion-ordered association
list. -/
def resolveLoop (available : List PackageWithRepo) (installed : List String)
    (maxDepth : Nat) :
    Nat → List (String × Nat) → List String → List (String × PackageWithRepo) →
    Except ResolveError (List (String × PackageWithRepo))
  | _, [], _, acc => .ok acc
  | 0, _ :: _, _, _ => .error .outOfFuel
  | fuel + 1, (depName, depth) :: queue, visited, acc =>
    if depth > maxDepth then
      resolveLoop available installed maxDepth fuel queue visited acc
    else if visited.contains depName then
      resolveLoop available installed maxDepth fuel queue visited acc
    else
      let visited := depName :: visited
      if installed.contains depName then
        resolveLoop available installed maxDepth fuel queue visited acc
      else if acc.any (·.1 = depName) then
        resolveLoop available installed maxDepth fuel queue visited acc
      else
        match findBestPackage available depName with
        | none => .error (.depNotFound depName)
        | some pkg =>
          let subs := pkg.deps.filter (fun d => !(visited.contains d))
          resolveLoop available installed maxDepth fuel
            (queue ++ subs.map (fun d => (d, depth + 1))) visited
            (acc ++ [(depName, pkg)])

/-- Association-list read used for the HashMap lookups of the sort phase. -/
def alistGet (l : List (String × Nat)) (k : String) : Option Nat :=
  (l.find? (·.1 = k)).map (·.2)

/-- Association-list pointwise update. -/
def alistSet (l : List (String × Nat)) (k : String) (v : Nat) : List (String × Nat) :=
  l.map (fun p => if p.1 = k then (p.1, v) else p)

/-- Edge construction of the sort phase: for each chosen package and each of
its dependencies that is itself being installed, record the edge
`package -> dependency` in `dep_graph` and bump the dependency's in-degree. -/
def buildGraph :
    List (String × PackageWithRepo) →
    List (String × Nat) → List (String × List String) →
    List (String × Nat) × List (String × List String)
  | [], inDeg, depGraph => (inDeg, depGraph)
  | (name, pkg) :: rest, inDeg, depGraph =>
    let step := pkg.deps.foldl (fun (st : List (String × Nat) × List (String × List String)) dep =>
      match alistGet st.1 dep with
      | none => st
      | some deg =>
        (alistSet st.1 dep (deg + 1),
         st.2.map (fun p => if p.1 = name then (p.1, p.2 ++ [dep]) else p)))
      (inDeg, depGraph)
    buildGraph rest step.1 step.2

/-- Kahn's algorithm loop: pop a zero-in-degree node, append it to the order,
decrement the in-degree of each node it points at, enqueueing those that
reach zero.  (Rust decrements exact usize values; a decrement is modelled as
firing only on positive degrees, which coincide on every reachable state.) -/
def kahnLoop :
    Nat → List String → List (String × Nat) → List (String × List String) →
    List String → List String
  | _, [], _, _, sorted => sorted
  | 0, _ :: _, _, _, sorted => sorted
  | fuel + 1, node :: zq, inDeg, depGraph, sorted =>
    let sorted := sorted ++ [node]
    match (depGraph.find? (·.1 = node)).map (·.2) with
    | none => kahnLoop fuel zq inDeg depGraph sorted
    | some dependents =>
      let step := dependents.foldl (fun (st : List (String × Nat) × List String) dep =>
        match alistGet st.1 dep with
        | none => st
        | some deg =>
          (alistSet st.1 dep (deg - 1), if deg = 1 then st.2 ++ [dep] else st.2))
        (inDeg, [])
      kahnLoop fuel (zq ++ step.2) step.1 depGraph sorted

/-- `resolve_dependencies_transitive` (repository/mod.rs 687-827): seed the
queue with the rpmlib/path-filtered initial names at depth 0, run the BFS,
then topologically sort the chosen set with Kahn's algorithm; if the sort
does not cover every node (a cycle), keep the discovery order, otherwise
reorder by the sorted names. -/
def resolveDependenciesTransitive (available : List PackageWithRepo)
    (installed : List String) (initialDependencies : List String)
    (maxDepth fuel : Nat) : Except ResolveError (List (String × PackageWithRepo)) :=
  let seeds := (initialDependencies.filter (fun d => !(skipDep d))).map (fun d => (d, 0))
  match resolveLoop available installed maxDepth fuel seeds [] [] with
  | .error e => .error e
  | .ok result =>
    let inDeg0 := result.map (fun p => (p.1, 0))
    let depGraph0 := result.map (fun p => (p.1, ([] : List String)))
    let (inDeg, depGraph) := buildGraph result inDeg0 depGraph0
    let zeroInDegree := (inDeg.filter (·.2 = 0)).map (·.1)
    let sorted := kahnLoop (result.length + 1) zeroInDegree inDeg depGraph []
    if sorted.length ≠ result.length then
      -- circular dependency: warn and fall back to the discovery order
      .ok result
    else
      .ok (sorted.filterMap (fun n =>
        (result.find? (·.1 = n)).map (fun p => (n, p.2))))

/-! ## The claimed search ordering (refinement comparison)

The specification asserts that search results are ordered by
(repository priority descending, name, version); the definitions below state
that ordering so it can be compared with the embedded `searchPackages`. -/

/-- Priority of the repository a row belongs to (0 when the repository row is
absent). -/
def priorityOf (repos : List Repository) (r : RepoPkgRow) : Int :=
  match repos.find? (·.id = r.repositoryId) with
  | some repo => repo.priority
  | none => 0

/-- The ordering the specification claims for search results:
repository priority descending, then name, then version. -/
def claimedSearchLe (repos : List Repository) (a b : RepoPkgRow) : Prop :=
  priorityOf repos b < priorityOf repos a ∨
    (priorityOf repos a = priorityOf repos b ∧ nameVersionLe a b)

instance (repos : List Repository) : DecidableRel (claimedSearchLe repos) := fun a b => by
  unfold claimedSearchLe
  exact inferInstance

/-- Decidable form of the rollback preconditions: the changeset exists, is in
state `applied`, and installed at least one trove. -/
def rollbackPrecond (cat : Catalog) (csId : Nat) : Bool :=
  match cat.findChangesetById csId with
  | some c =>
    decide (c.status = ChangesetStatus.applied) &&
      !(cat.troves.filter (·.installedBy = some csId)).isEmpty
  | none => false

/-! ## Concrete scenarios

Small states used to instantiate the theorems: the spec's S1/S2 install and
upgrade of "alpha", the S6 resolver chain, and a two-repository search
state.  `demoHash` is an injective stand-in for SHA-256: the engine treats
the hash function as an opaque parameter, and no claim settled below depends
on its concrete values. -/

/-- Stand-in content hash. -/
def demoHash (content : String) : String := "sha256:" ++ content

/-- The trove row of scenario S1 (alpha 1.0.0 installed by changeset 1). -/
def alphaTrove1 : Trove :=
  { id := 1, name := "alpha", version := "1.0.0", arch := some "x86_64", installedBy := some 1 }

/-- Catalog after S1: alpha 1.0.0 with one file, installed by changeset 1. -/
def s1Cat : Catalog :=
  { changesets := [{ id := 1, description := "Install alpha-1.0.0", status := .applied,
                     createdAt := some 1, appliedAt := some 1 }]
    troves := [alphaTrove1]
    files := [{ path := "/usr/bin/alpha", hash := demoHash "ALPHA\n", size := 6,
                mode := 493, troveId := 1 }]
    deps := []
    fileContents := [{ hash := demoHash "ALPHA\n",
                       contentPath := contentPathOf (demoHash "ALPHA\n"), size := 6 }]
    fileHistory := [{ changesetId := 1, path := "/usr/bin/alpha",
                      hash := some (demoHash "ALPHA\n"), action := "add", previousHash := none }]
    nextChangesetId := 2
    nextTroveId := 2 }

/-- Disk after S1. -/
def s1Disk : Disk := [("/usr/bin/alpha", "ALPHA\n")]

/-- The S2 upgrade package: alpha 1.1.0 rewriting /usr/bin/alpha. -/
def alphaPkg11 : ParsedPackage :=
  { name := "alpha", version := "1.1.0", arch := some "x86_64"
    files := [{ path := "/usr/bin/alpha", content := "ALPHA2\n", size := 7, mode := 493 }]
    deps := [] }

/-- The S3 downgrade attempt: alpha 1.0.0 again. -/
def alphaPkg10 : ParsedPackage :=
  { name := "alpha", version := "1.0.0", arch := some "x86_64"
    files := [{ path := "/usr/bin/alpha", content := "ALPHA\n", size := 6, mode := 493 }]
    deps := [] }

/-- An empty catalog, used as the fallback of `Except.toOption.getD`. -/
def emptyCatalog : Catalog :=
  { changesets := [], troves := [], files := [], deps := [], fileContents := []
    fileHistory := [], nextChangesetId := 1, nextTroveId := 1 }

/-- Catalog produced by the S2 upgrade transaction. -/
def s2TxCat : Catalog :=
  (installTx demoHash true (some alphaTrove1) alphaPkg11 2 s1Disk s1Cat).toOption.getD emptyCatalog

/-- Catalog after the S2 upgrade command. -/
def s2Cat : Catalog :=
  (installPackageFromFile demoHash (some alphaTrove1) alphaPkg11 2 s1Cat s1Disk).2.1

/-- Disk after the S2 upgrade command. -/
def s2Disk : Disk :=
  (installPackageFromFile demoHash (some alphaTrove1) alphaPkg11 2 s1Cat s1Disk).2.2

/-- The trove row installed by the S2 upgrade. -/
def alphaTrove2 : Trove :=
  { id := 2, name := "alpha", version := "1.1.0", arch := some "x86_64", installedBy := some 2 }

/-- A catalog whose installed trove carries an unparseable version string
(non-numeric epoch). -/
def badVersionCat : Catalog :=
  { changesets := [{ id := 1, description := "Install alpha-x:1.0", status := .applied,
                     createdAt := some 1, appliedAt := some 1 }]
    troves := [{ id := 1, name := "alpha", version := "x:1.0", arch := some "x86_64",
                 installedBy := some 1 }]
    files := [], deps := [], fileContents := [], fileHistory := []
    nextChangesetId := 2, nextTroveId := 2 }

/-- The incoming package for the unparseable-version scenario. -/
def badVersionPkg : ParsedPackage :=
  { name := "alpha", version := "2.0", arch := some "x86_64"
    files := [{ path := "/usr/bin/alpha2", content := "X\n", size := 2, mode := 493 }]
    deps := [] }

/-- S6 resolver scenario: A depends on B, B on C, C on nothing. -/
def pkgA : PackageWithRepo := { name := "A", version := "1", deps := ["B"], repoName := "r" }

/-- S6: package B. -/
def pkgB : PackageWithRepo := { name := "B", version := "1", deps := ["C"], repoName := "r" }

/-- S6: package C. -/
def pkgC : PackageWithRepo := { name := "C", version := "1", deps := [], repoName := "r" }

/-- Depth scenario: A depends on B. -/
def pkgA2 : PackageWithRepo := { name := "A", version := "1", deps := ["B"], repoName := "r" }

/-- Depth scenario: B has no dependencies. -/
def pkgB2 : PackageWithRepo := { name := "B", version := "1", deps := [], repoName := "r" }

/-- A low-priority repository (id 1, priority 0). -/
def repoLow : Repository :=
  { id := 1, name := "low", url := "u1", enabled := true, priority := 0,
    metadataExpire := 3600, lastSync := none }

/-- A high-priority repository (id 2, priority 10). -/
def repoHigh : Repository :=
  { id := 2, name := "high", url := "u2", enabled := true, priority := 10,
    metadataExpire := 3600, lastSync := none }

/-- A package row of the low-priority repository, name "alpha". -/
def rowAlpha : RepoPkgRow :=
  { repositoryId := 1, name := "alpha", version := "1.0", architecture := none,
    description := none, checksum := "ca", size := 1, downloadUrl := "ua", dependencies := none }

/-- A package row of the high-priority repository, name "beta". -/
def rowBeta : RepoPkgRow :=
  { repositoryId := 2, name := "beta", version := "1.0", architecture := none,
    description := none, checksum := "cb", size := 1, downloadUrl := "ub", dependencies := none }

/-- Sync scenario: one stale row of repository 1 and one row of repository 2. -/
def syncDb : RepoDb :=
  { repositories := [repoLow, repoHigh]
    repositoryPackages :=
      [{ repositoryId := 1, name := "old", version := "0", architecture := none,
         description := none, checksum := "c0", size := 0, downloadUrl := "u0",
         dependencies := none },
       { repositoryId := 2, name := "other", version := "0", architecture := none,
         description := none, checksum := "c1", size := 0, downloadUrl := "u1",
         dependencies := none }] }

/-- Sync scenario: first freshly fetched package. -/
def pmOne : PkgMeta :=
  { name := "p1", version := "1", architecture := some "x86_64", description := none,
    checksum := "h1", size := 1, downloadUrl := "d1",
    dependencies := [{ name := "q", constraint := some ">= 1" }] }

/-- Sync scenario: second freshly fetched package. -/
def pmTwo : PkgMeta :=
  { name := "p2", version := "2", architecture := none, description := some "second",
    checksum := "h2", size := 2, downloadUrl := "d2", dependencies := [] }

/-- Result of the sync scenario. -/
def syncResult : RepoDb × Nat :=
  (syncRepositoryNative syncDb repoLow [pmOne, pmTwo] "T1").toOption.getD
    (⟨[], []⟩, 0)

instance : IsTotal RepoPkgRow nameVersionLe where
  total a b := by
    unfold nameVersionLe
    rcases lt_trichotomy a.name.data b.name.data with hlt | heq | hgt
    · exact Or.inl (Or.inl hlt)
    · rcases le_total a.version.data b.version.data with hv | hv
      · exact Or.inl (Or.inr ⟨heq, hv⟩)
      · exact Or.inr (Or.inr ⟨heq.symm, hv⟩)
    · exact Or.inr (Or.inl hgt)

instance : IsTrans RepoPkgRow nameVersionLe where
  trans a b c hab hbc := by
    unfold nameVersionLe at *
    rcases hab with hab | ⟨hab, hav⟩
    · rcases hbc with hbc | ⟨hbc, _⟩
      · exact Or.inl (hab.trans hbc)
      · exact Or.inl (hbc ▸ hab)
    · rcases hbc with hbc | ⟨hbc, hbv⟩
      · exact Or.inl (hab ▸ hbc)
      · exact Or.inr ⟨hab.trans hbc, hav.trans hbv⟩

/-! ## Theorems -/

/-- Claim C1: for the acyclic chain A → B → C the resolver's plan is claimed
to be exactly [C, B, A], dependencies strictly before dependents.  The
embedded `resolve_dependencies_transitive` instead returns [A, B, C]: the
Kahn phase records the edge `package → its dependency`, so zero in-degree
means "no dependents" and the emitted order puts dependents first, the
reverse of the function's own doc comment ("dependencies before
dependents"). -/
theorem resolver_emits_dependents_first :
    resolveDependenciesTransitive [pkgA, pkgB, pkgC] [] ["A"] 10 20 =
      .ok [("A", pkgA), ("B", pkgB), ("C", pkgC)] ∧
    resolveDependenciesTransitive [pkgA, pkgB, pkgC] [] ["A"] 10 20 ≠
      .ok [("C", pkgC), ("B", pkgB), ("A", pkgA)] := by
  constructor
  · rfl
  · decide

/-- Claim C2: `init` is claimed to initialize the schema and apply all
migrations up to the current version.  The embedded `db::init` only creates
parent directories and sets the four pragmas; the schema version stays 0 and
no table is created, while `schema::migrate` (never called by `init`) would
bring a fresh database to version `SCHEMA_VERSION = 4` with all tables. -/
theorem init_sets_pragmas_but_never_migrates :
    (dbInit SqliteDb.fresh).createdParentDirs = true ∧
    (dbInit SqliteDb.fresh).db.journalMode = "wal" ∧
    (dbInit SqliteDb.fresh).db.foreignKeys = true ∧
    (dbInit SqliteDb.fresh).db.busyTimeoutMs = 5000 ∧
    getSchemaVersion (dbInit SqliteDb.fresh).db = 0 ∧
    (dbInit SqliteDb.fresh).db.tables = [] ∧
    SCHEMA_VERSION = 4 ∧
    getSchemaVersion (migrate (dbInit SqliteDb.fresh).db) = 4 ∧
    "troves" ∈ (migrate (dbInit SqliteDb.fresh).db).tables ∧
    "troves" ∉ (dbInit SqliteDb.fresh).db.tables := by
  decide

/-- Claim C6: remove is claimed to end with the Deployer removing the
removed package's paths from the filesystem.  At a state where alpha 1.0.0
owns /usr/bin/alpha (present on disk) and nothing depends on it, the embedded
`Commands::Remove` succeeds, inserts and applies the "Remove alpha-1.0.0"
changeset and cascade-deletes the catalog rows — but returns the disk
unchanged: the source ends with "TODO: Actually delete files from filesystem
(Phase 6)". -/
theorem remove_leaves_filesystem_unchanged :
    (runRemove s1Cat s1Disk "alpha" 9).1 = .ok () ∧
    (runRemove s1Cat s1Disk "alpha" 9).2.1.troves = [] ∧
    (runRemove s1Cat s1Disk "alpha" 9).2.1.files = [] ∧
    (runRemove s1Cat s1Disk "alpha" 9).2.1.findChangesetById 2 =
      some { id := 2, description := "Remove alpha-1.0.0", status := .applied,
             createdAt := some 9, appliedAt := some 9 } ∧
    (runRemove s1Cat s1Disk "alpha" 9).2.2 = s1Disk ∧
    Disk.hasFile (runRemove s1Cat s1Disk "alpha" 9).2.2 "/usr/bin/alpha" = true := by
  decide

/-- Claim C7 (counterexample): with a maximum depth of 0 and A depending on
B, B is reached at depth 1 > 0; the claim says the resolver raises
`DepthExceeded`, but resolution completes successfully with B silently
dropped from the plan. -/
theorem depth_overflow_is_not_an_error :
    resolveDependenciesTransitive [pkgA2, pkgB2] [] ["A"] 0 20 =
      .ok [("A", pkgA2)] := by
  rfl

/-- Claim C7 (as amended): a queue entry whose depth exceeds the maximum is
skipped — the loop continues on the rest of the queue with nothing recorded
and no error raised. -/
theorem resolveLoop_skips_beyond_max_depth (available : List PackageWithRepo)
    (installed : List String) (maxDepth fuel : Nat) (queue : List (String × Nat))
    (visited : List String) (acc : List (String × PackageWithRepo))
    (name : String) (depth : Nat) (hdepth : depth > maxDepth) :
    resolveLoop available installed maxDepth (fuel + 1) ((name, depth) :: queue) visited acc =
      resolveLoop available installed maxDepth fuel queue visited acc := by
  simp [resolveLoop, hdepth]

/-- Witness for `resolveLoop_skips_beyond_max_depth` at a concrete overdeep
queue entry. -/
theorem resolveLoop_skips_beyond_max_depth_witness :
    resolveLoop [] [] 0 1 [("B", 1)] [] [] = resolveLoop [] [] 0 0 [] [] [] :=
  resolveLoop_skips_beyond_max_depth [] [] 0 0 [] [] [] "B" 1 (by decide)

/-- Claim C9 (as amended): `search` is deterministic — equal pattern on the
same rows yields equal result lists — and the row order is (name, version)
ascending, the embedded ORDER BY; repository priority plays no part in it. -/
theorem search_deterministic_and_sorted (rows rows' : List RepoPkgRow) (pat pat' : String)
    (hrows : rows = rows') (hpat : pat = pat') :
    searchPackages rows pat = searchPackages rows' pat' ∧
    (searchPackages rows pat).Sorted nameVersionLe := by
  subst hrows
  subst hpat
  exact ⟨rfl, List.sorted_insertionSort nameVersionLe _⟩

/-- Witness for `search_deterministic_and_sorted` on the two-repository
state. -/
theorem search_deterministic_and_sorted_witness :
    searchPackages [rowBeta, rowAlpha] "" = searchPackages [rowBeta, rowAlpha] "" ∧
    (searchPackages [rowBeta, rowAlpha] "").Sorted nameVersionLe :=
  search_deterministic_and_sorted [rowBeta, rowAlpha] [rowBeta, rowAlpha] "" "" rfl rfl

/-- Claim C9 (counterexample): the claim orders results by (repository
priority descending, name, version).  With "alpha" in a priority-0 repository
and "beta" in a priority-10 repository, the embedded search returns
[alpha, beta] — beta, whose repository has the higher priority, would have to
come first under the claimed key, so the result is not sorted by it. -/
theorem search_not_ordered_by_priority :
    searchPackages [rowBeta, rowAlpha] "" = [rowAlpha, rowBeta] ∧
    ¬ (searchPackages [rowBeta, rowAlpha] "").Sorted
        (claimedSearchLe [repoLow, repoHigh]) := by
  constructor
  · decide
  · decide

/-- Claim C8 (as amended): when either version string of a same-name,
same-arch installed trove fails to parse, the classifier logs a warning and
moves on without recording an upgrade and without refusing — the install then
proceeds as a fresh install. -/
theorem classify_parse_failure_allows_install (cat : Catalog) (name version : String)
    (arch : Option String) (t : Trove)
    (hone : cat.findTrovesByName name = [t])
    (harch : t.arch = arch)
    (hver : t.version ≠ version)
    (hfail : RpmVersion.parse t.version = none ∨ RpmVersion.parse version = none) :
    classifyInstall cat name version arch = .ok none := by
  unfold classifyInstall
  rw [hone]
  unfold classifyGo
  rcases hfail with hf | hf
  · rw [hf]
    simp [harch, hver, classifyGo]
  · rw [hf]
    cases hp : RpmVersion.parse t.version <;> simp [harch, hver, classifyGo]

/-- Witness for `classify_parse_failure_allows_install`: alpha "x:1.0" is
installed (non-numeric epoch, unparseable) and alpha "2.0" arrives. -/
theorem classify_parse_failure_allows_install_witness :
    classifyInstall badVersionCat "alpha" "2.0" (some "x86_64") = .ok none :=
  classify_parse_failure_allows_install badVersionCat "alpha" "2.0" (some "x86_64")
    { id := 1, name := "alpha", version := "x:1.0", arch := some "x86_64", installedBy := some 1 }
    (by decide) (by decide) (by decide) (Or.inl (by decide))

/-- Claim C8 (counterexample): the claim says the engine refuses to install a
version it cannot compare.  With alpha "x:1.0" installed (unparseable) and
alpha "2.0" incoming, the embedded install command succeeds and both versions
end up installed. -/
theorem unparseable_version_install_proceeds :
    (runInstallCmd demoHash badVersionPkg 3 badVersionCat []).1 = .ok () ∧
    (runInstallCmd demoHash badVersionPkg 3 badVersionCat []).2.1.troves =
      [{ id := 1, name := "alpha", version := "x:1.0", arch := some "x86_64",
         installedBy := some 1 },
       { id := 2, name := "alpha", version := "2.0", arch := some "x86_64",
         installedBy := some 2 }] := by
  constructor
  · decide
  · decide

/-- Claim C3 (counterexample): in the S1 → S2 upgrade the history row of
changeset 2 has action "modify" but `previousHash = none`: the engine's
INSERT INTO file_history names only (changeset_id, path, sha256_hash,
action), so previous_hash is never the hash of the previously installed
content as claimed. -/
theorem upgrade_history_lacks_previous_hash :
    s2Cat.fileHistory =
      [{ changesetId := 1, path := "/usr/bin/alpha", hash := some (demoHash "ALPHA\n"),
         action := "add", previousHash := none },
       { changesetId := 2, path := "/usr/bin/alpha", hash := some (demoHash "ALPHA2\n"),
         action := "modify", previousHash := none }] := by
  decide

/-- Projections preserved by `applyChangeset` (only `changesets` changes). -/
theorem applyChangeset_fileHistory (i n : Nat) (c : Catalog) :
    (applyChangeset i n c).fileHistory = c.fileHistory := rfl

/-- Projections preserved by `installDeps` (only `deps` changes). -/
theorem installDeps_fileHistory (t : Nat) (ds : List PkgDep) (c : Catalog) :
    (installDeps t ds c).fileHistory = c.fileHistory := rfl

/-- Projections preserved by `deleteTroveCascade` (changesets, history and
counters are untouched). -/
theorem deleteTroveCascade_fileHistory (c : Catalog) (i : Nat) :
    (c.deleteTroveCascade i).fileHistory = c.fileHistory := rfl

/-- `insertPendingChangeset` leaves file_history alone. -/
theorem insertPendingChangeset_fileHistory (d : String) (n : Nat) (c : Catalog) :
    (insertPendingChangeset d n c).fileHistory = c.fileHistory := rfl

/-- A successful `insertTroveRow` leaves file_history alone. -/
theorem insertTroveRow_fileHistory {pkg : ParsedPackage} {csId : Nat} {c c' : Catalog}
    (hok : insertTroveRow pkg csId c = .ok c') : c'.fileHistory = c.fileHistory := by
  unfold insertTroveRow at hok
  split at hok
  · exact absurd hok (by simp)
  · cases hok
    rfl

/-- `insertFileContentIfAbsent` leaves file_history alone. -/
theorem insertFileContentIfAbsent_fileHistory (hash : String) (size : Nat) (cat : Catalog) :
    (insertFileContentIfAbsent hash size cat).fileHistory = cat.fileHistory := by
  unfold insertFileContentIfAbsent
  split <;> rfl

/-- A successful `insertFileRow` leaves file_history alone. -/
theorem insertFileRow_fileHistory {path hash : String} {size mode tid : Nat}
    {cat cat' : Catalog} (hok : insertFileRow path hash size mode tid cat = .ok cat') :
    cat'.fileHistory = cat.fileHistory := by
  unfold insertFileRow at hok
  split at hok
  · exact absurd hok (by simp)
  · cases hok
    rfl

/-- One successful per-file step appends exactly one history row: the new
hash, action "modify" exactly when the path is on disk, and a NULL
previous_hash. -/
theorem installFileStep_fileHistory {h : String → String} {tol : Bool} {pn : String}
    {csId tid : Nat} {disk : Disk} {cat : Catalog} {f : PkgFile} {cat' : Catalog}
    (hok : installFileStep h tol pn csId tid disk cat f = .ok cat') :
    cat'.fileHistory = cat.fileHistory ++
      [{ changesetId := csId, path := f.path, hash := some (h f.content),
         action := if disk.hasFile f.path then "modify" else "add",
         previousHash := none }] := by
  unfold installFileStep at hok
  split at hok
  · exact absurd hok (by simp)
  · simp only [] at hok
    cases hrow : insertFileRow f.path (h f.content) f.size f.mode tid
        (insertFileContentIfAbsent (h f.content) f.size cat) with
    | error e =>
      rw [hrow] at hok
      exact absurd hok (by simp)
    | ok cat2 =>
      rw [hrow] at hok
      have hcat := Except.ok.inj hok
      subst hcat
      show cat2.fileHistory ++ _ = cat.fileHistory ++ _
      rw [insertFileRow_fileHistory hrow, insertFileContentIfAbsent_fileHistory]

/-- The install file loop appends exactly one history row per incoming
file. -/
theorem installFiles_fileHistory {h : String → String} {tol : Bool} {pn : String}
    {csId tid : Nat} {disk : Disk} (files : List PkgFile) :
    ∀ cat cat' : Catalog,
      installFiles h tol pn csId tid disk files cat = .ok cat' →
      cat'.fileHistory = cat.fileHistory ++ files.map (fun f =>
        { changesetId := csId, path := f.path, hash := some (h f.content),
          action := if disk.hasFile f.path then "modify" else "add",
          previousHash := none }) := by
  induction files with
  | nil =>
    intro cat cat' hok
    unfold installFiles at hok
    cases hok
    simp
  | cons f rest ih =>
    intro cat cat' hok
    unfold installFiles at hok
    cases hstep : installFileStep h tol pn csId tid disk cat f with
    | error e =>
      rw [hstep] at hok
      exact absurd hok (by simp)
    | ok cat1 =>
      rw [hstep] at hok
      have h1 := installFileStep_fileHistory hstep
      have h2 := ih cat1 cat' hok
      rw [h2, h1]
      simp

/-- The trove-insert / file-loop tail of the install transaction appends the
per-file history rows to the entering catalog. -/
theorem installTxTail_history {h : String → String} {tol : Bool} {pkg : ParsedPackage}
    {csId now : Nat} {disk : Disk} {cat2 catR : Catalog}
    (hok : (match insertTroveRow pkg csId cat2 with
            | Except.error e => (Except.error e : Except EngineError Catalog)
            | Except.ok cat3 =>
              match installFiles h tol pkg.name csId cat2.nextTroveId disk pkg.files cat3 with
              | Except.error e => Except.error e
              | Except.ok cat4 =>
                Except.ok (applyChangeset csId now (installDeps cat2.nextTroveId pkg.deps cat4))) =
          Except.ok catR) :
    catR.fileHistory = cat2.fileHistory ++ pkg.files.map (fun f =>
      { changesetId := csId, path := f.path, hash := some (h f.content),
        action := if disk.hasFile f.path then "modify" else "add",
        previousHash := none }) := by
  cases htrove : insertTroveRow pkg csId cat2 with
  | error e =>
    rw [htrove] at hok
    exact absurd hok (by simp)
  | ok cat3 =>
    rw [htrove] at hok
    simp only [] at hok
    cases hfiles : installFiles h tol pkg.name csId cat2.nextTroveId disk pkg.files cat3 with
    | error e =>
      rw [hfiles] at hok
      exact absurd hok (by simp)
    | ok cat4 =>
      rw [hfiles] at hok
      have hR := Except.ok.inj hok
      subst hR
      rw [applyChangeset_fileHistory, installDeps_fileHistory,
          installFiles_fileHistory pkg.files cat3 cat4 hfiles,
          insertTroveRow_fileHistory htrove]

/-- Claim C3 (as amended): a successful install or upgrade transaction
appends to file_history exactly one row per incoming file, carrying the new
content hash, action "modify" exactly when the path already exists on disk
(and "add" otherwise), and previous_hash always NULL. -/
theorem installTx_history_rows (h : String → String) (tol : Bool) (old : Option Trove)
    (pkg : ParsedPackage) (now : Nat) (disk : Disk) (cat cat' : Catalog)
    (hok : installTx h tol old pkg now disk cat = .ok cat') :
    cat'.fileHistory = cat.fileHistory ++ pkg.files.map (fun f =>
      { changesetId := cat.nextChangesetId, path := f.path, hash := some (h f.content),
        action := if disk.hasFile f.path then "modify" else "add",
        previousHash := none }) := by
  unfold installTx at hok
  cases old with
  | none =>
    have hmain := installTxTail_history hok
    rw [hmain, insertPendingChangeset_fileHistory]
  | some o =>
    have hmain := installTxTail_history hok
    rw [hmain, deleteTroveCascade_fileHistory, insertPendingChangeset_fileHistory]

/-- Witness for `installTx_history_rows` at the S1 → S2 upgrade. -/
theorem installTx_history_rows_witness :
    s2TxCat.fileHistory =
      [{ changesetId := 1, path := "/usr/bin/alpha", hash := some (demoHash "ALPHA\n"),
         action := "add", previousHash := none },
       { changesetId := 2, path := "/usr/bin/alpha", hash := some (demoHash "ALPHA2\n"),
         action := "modify", previousHash := none }] := by
  have hmain := installTx_history_rows demoHash true (some alphaTrove1) alphaPkg11 2
    s1Disk s1Cat s2TxCat (by decide)
  rw [hmain]
  decide

/-- Claim C5: with exactly one trove of the same name and architecture but a
different version installed, and both version strings parsing, a new version
that is not strictly greater is refused as a downgrade before any transaction
opens — the command returns the error with catalog and disk unchanged, so no
changeset is inserted — while a strictly greater version is classified as an
upgrade of that existing trove (cmp ≠ gt is exactly new ≤ old under the total
comparison). -/
theorem install_refuses_downgrade (h : String → String) (cat : Catalog) (disk : Disk)
    (pkg : ParsedPackage) (t : Trove) (now : Nat) (oldV newV : RpmVersion)
    (hone : cat.findTrovesByName pkg.name = [t])
    (harch : t.arch = pkg.arch)
    (hver : t.version ≠ pkg.version)
    (hold : RpmVersion.parse t.version = some oldV)
    (hnew : RpmVersion.parse pkg.version = some newV) :
    (RpmVersion.cmp newV oldV ≠ .gt →
      runInstallCmd h pkg now cat disk =
        (.error (.downgrade pkg.name t.version pkg.version), cat, disk)) ∧
    (RpmVersion.cmp newV oldV = .gt →
      classifyInstall cat pkg.name pkg.version pkg.arch = .ok (some t)) := by
  have hbase : ∀ acc, classifyGo pkg.version pkg.arch pkg.name [t] acc =
      if RpmVersion.cmp newV oldV = .gt then Except.ok (some t)
      else Except.error (.downgrade pkg.name t.version pkg.version) := by
    intro acc
    unfold classifyGo
    rw [if_pos harch, if_neg hver, hold, hnew]
    rfl
  constructor
  · intro hle
    unfold runInstallCmd
    unfold classifyInstall
    rw [hone, hbase none, if_neg hle]
  · intro hgt
    unfold classifyInstall
    rw [hone, hbase none, if_pos hgt]

/-- Witness for `install_refuses_downgrade`: after the S2 upgrade to 1.1.0,
reinstalling 1.0.0 is refused with the catalog and disk unchanged. -/
theorem install_refuses_downgrade_witness :
    runInstallCmd demoHash alphaPkg10 3 s2Cat s2Disk =
      (.error (.downgrade "alpha" "1.1.0" "1.0.0"), s2Cat, s2Disk) := by
  have hmain := install_refuses_downgrade demoHash s2Cat s2Disk alphaPkg10 alphaTrove2 3
    { epoch := 0, upstream := "1.1.0".data, release := "0".data }
    { epoch := 0, upstream := "1.0.0".data, release := "0".data }
    (by decide) (by decide) (by decide) (by decide) (by decide)
  exact hmain.1 (by decide)

/-- A successful insert loop appends exactly the given rows and counts
them; the repositories table is untouched. -/
theorem insertRepoPkgs_ok (rows : List RepoPkgRow) :
    ∀ (db : RepoDb) (count : Nat) (db' : RepoDb) (n : Nat),
      insertRepoPkgs rows db count = .ok (db', n) →
      db'.repositoryPackages = db.repositoryPackages ++ rows ∧
      db'.repositories = db.repositories ∧
      n = count + rows.length := by
  induction rows with
  | nil =>
    intro db count db' n hok
    unfold insertRepoPkgs at hok
    cases hok
    simp
  | cons r rest ih =>
    intro db count db' n hok
    unfold insertRepoPkgs at hok
    cases hstep : insertRepoPkg db r with
    | error e =>
      rw [hstep] at hok
      exact absurd hok (by simp)
    | ok db1 =>
      rw [hstep] at hok
      simp only [] at hok
      obtain ⟨h1, h2, h3⟩ := ih _ _ _ _ hok
      unfold insertRepoPkg at hstep
      split at hstep
      · exact absurd hstep (by simp)
      · have hdb1 := Except.ok.inj hstep
        subst hdb1
        refine ⟨?_, ?_, ?_⟩
        · rw [h1]
          simp
        · rw [h2]
        · rw [h3]
          simp only [List.length_cons]
          omega

/-- Claim C10: when the sync database pass returns Ok(n), the
repository_packages rows of the synced repository are exactly the n parsed
packages (every earlier row of that repository having been deleted first),
rows of other repositories are untouched, and the repository's last_sync is
set to the sync time. -/
theorem sync_full_replace (db : RepoDb) (repo : Repository) (pkgs : List PkgMeta)
    (now : String) (db' : RepoDb) (n : Nat)
    (hok : syncRepositoryNative db repo pkgs now = .ok (db', n)) :
    db'.repositoryPackages.filter (·.repositoryId = repo.id) =
      pkgs.map (toRepoPkgRow repo.id) ∧
    n = pkgs.length ∧
    db'.repositoryPackages.filter (·.repositoryId ≠ repo.id) =
      db.repositoryPackages.filter (·.repositoryId ≠ repo.id) ∧
    (∀ r ∈ db'.repositories, r.id = repo.id → r.lastSync = some now) ∧
    (∀ r ∈ db'.repositories, r.id ≠ repo.id → r ∈ db.repositories) := by
  unfold syncRepositoryNative at hok
  simp only [] at hok
  cases hins : insertRepoPkgs (pkgs.map (toRepoPkgRow repo.id))
      { db with repositoryPackages := db.repositoryPackages.filter (·.repositoryId ≠ repo.id) }
      0 with
  | error e =>
    rw [hins] at hok
    exact absurd hok (by simp)
  | ok p =>
    obtain ⟨db2, count⟩ := p
    rw [hins] at hok
    simp only [] at hok
    obtain ⟨h1, h2, h3⟩ := insertRepoPkgs_ok _ _ _ _ _ hins
    injection Except.ok.inj hok with hdb hn
    subst hdb
    subst hn
    refine ⟨?_, ?_, ?_, ?_, ?_⟩
    · show (db2.repositoryPackages.filter _) = _
      rw [h1, List.filter_append]
      have hnil : ((db.repositoryPackages.filter (fun r => r.repositoryId ≠ repo.id)).filter
          (fun r => decide (r.repositoryId = repo.id))) = [] := by
        rw [List.filter_filter]
        apply List.filter_eq_nil_iff.mpr
        intro a _
        simp
      have hself : ((pkgs.map (toRepoPkgRow repo.id)).filter
          (fun r => decide (r.repositoryId = repo.id))) = pkgs.map (toRepoPkgRow repo.id) := by
        apply List.filter_eq_self.mpr
        intro a ha
        rcases List.mem_map.mp ha with ⟨p, _, hp⟩
        subst hp
        simp [toRepoPkgRow]
      show (db.repositoryPackages.filter _).filter _ ++ (pkgs.map (toRepoPkgRow repo.id)).filter _ = _
      rw [hnil, hself]
      simp
    · rw [h3]
      simp
    · show (db2.repositoryPackages.filter _) = _
      rw [h1, List.filter_append]
      have hkeep : ((db.repositoryPackages.filter (fun r => r.repositoryId ≠ repo.id)).filter
          (fun r => decide (r.repositoryId ≠ repo.id))) =
          db.repositoryPackages.filter (fun r => decide (r.repositoryId ≠ repo.id)) := by
        rw [List.filter_filter]
        apply List.filter_congr
        intro a _
        simp
      have hnil : ((pkgs.map (toRepoPkgRow repo.id)).filter
          (fun r => decide (r.repositoryId ≠ repo.id))) = [] := by
        apply List.filter_eq_nil_iff.mpr
        intro a ha
        rcases List.mem_map.mp ha with ⟨p, _, hp⟩
        subst hp
        simp [toRepoPkgRow]
      show (db.repositoryPackages.filter _).filter _ ++ (pkgs.map (toRepoPkgRow repo.id)).filter _ = _
      rw [hkeep, hnil]
      simp
    · intro r hr hid
      rcases List.mem_map.mp hr with ⟨r0, _, hr0⟩
      subst hr0
      by_cases hc : r0.id = repo.id
      · simp only [if_pos hc]
      · simp only [if_neg hc] at hid
        exact absurd hid hc
    · intro r hr hid
      rcases List.mem_map.mp hr with ⟨r0, hr0mem, hr0⟩
      subst hr0
      rw [h2] at hr0mem
      by_cases hc : r0.id = repo.id
      · simp only [if_pos hc] at hid
        exact absurd rfl hid
      · simp only [if_neg hc]
        exact hr0mem

/-- Witness for `sync_full_replace` at the two-repository sync scenario. -/
theorem sync_full_replace_witness :
    syncResult.1.repositoryPackages.filter (·.repositoryId = repoLow.id) =
      [pmOne, pmTwo].map (toRepoPkgRow repoLow.id) ∧
    syncResult.2 = ([pmOne, pmTwo] : List PkgMeta).length := by
  have hmain := sync_full_replace syncDb repoLow [pmOne, pmTwo] "T1"
    syncResult.1 syncResult.2 (by decide)
  exact ⟨hmain.1, hmain.2.1⟩

/-- Changesets survive a fold of cascade deletes. -/
theorem foldl_delete_changesets (qs : List Trove) (c : Catalog) :
    (qs.foldl (fun acc t => acc.deleteTroveCascade t.id) c).changesets = c.changesets := by
  induction qs generalizing c with
  | nil => rfl
  | cons q rest ih =>
    rw [List.foldl_cons, ih]
    rfl

/-- A trove surviving a fold of cascade deletes was present before the fold
and carries none of the deleted ids. -/
theorem mem_foldl_delete_troves (qs : List Trove) (c : Catalog) (t : Trove)
    (h : t ∈ (qs.foldl (fun acc q => acc.deleteTroveCascade q.id) c).troves) :
    t ∈ c.troves ∧ ∀ q ∈ qs, t.id ≠ q.id := by
  induction qs generalizing c with
  | nil => exact ⟨h, by simp⟩
  | cons q rest ih =>
    rw [List.foldl_cons] at h
    obtain ⟨hmem, hrest⟩ := ih _ h
    have hsplit := List.mem_filter.mp hmem
    refine ⟨hsplit.1, ?_⟩
    intro q' hq'
    rcases List.mem_cons.mp hq' with heq | hq''
    · subst heq
      simpa using hsplit.2
    · exact hrest q' hq''

/-- A file row surviving a fold of cascade deletes was present before and
belongs to none of the deleted troves. -/
theorem mem_foldl_delete_files (qs : List Trove) (c : Catalog) (f : FileRow)
    (h : f ∈ (qs.foldl (fun acc q => acc.deleteTroveCascade q.id) c).files) :
    f ∈ c.files ∧ ∀ q ∈ qs, f.troveId ≠ q.id := by
  induction qs generalizing c with
  | nil => exact ⟨h, by simp⟩
  | cons q rest ih =>
    rw [List.foldl_cons] at h
    obtain ⟨hmem, hrest⟩ := ih _ h
    have hsplit := List.mem_filter.mp hmem
    refine ⟨hsplit.1, ?_⟩
    intro q' hq'
    rcases List.mem_cons.mp hq' with heq | hq''
    · subst heq
      simpa using hsplit.2
    · exact hrest q' hq''

/-- A dependency row surviving a fold of cascade deletes was present before
and belongs to none of the deleted troves. -/
theorem mem_foldl_delete_deps (qs : List Trove) (c : Catalog) (d : DepRow)
    (h : d ∈ (qs.foldl (fun acc q => acc.deleteTroveCascade q.id) c).deps) :
    d ∈ c.deps ∧ ∀ q ∈ qs, d.troveId ≠ q.id := by
  induction qs generalizing c with
  | nil => exact ⟨h, by simp⟩
  | cons q rest ih =>
    rw [List.foldl_cons] at h
    obtain ⟨hmem, hrest⟩ := ih _ h
    have hsplit := List.mem_filter.mp hmem
    refine ⟨hsplit.1, ?_⟩
    intro q' hq'
    rcases List.mem_cons.mp hq' with heq | hq''
    · subst heq
      simpa using hsplit.2
    · exact hrest q' hq''

/-- A path absent from the disk stays absent under filtering. -/
theorem hasFile_filter_sub {d : Disk} {p : String} {q : String × String → Bool}
    (h : Disk.hasFile d p = false) : Disk.hasFile (d.filter q) p = false := by
  unfold Disk.hasFile at h ⊢
  rw [List.any_filter]
  rw [List.any_eq_false] at h ⊢
  intro x hx
  simp only [Bool.and_eq_true, not_and]
  intro _
  exact h x hx

/-- Removing a path makes it absent. -/
theorem hasFile_removeFile (d : Disk) (p : String) :
    Disk.hasFile (d.removeFile p) p = false := by
  unfold Disk.hasFile Disk.removeFile
  rw [List.any_filter, List.any_eq_false]
  intro x hx
  simp

/-- The post-commit removal pass never re-creates an absent path. -/
theorem foldl_remove_preserves_absent (rows : List (String × String)) (d : Disk) (p : String)
    (h : Disk.hasFile d p = false) :
    Disk.hasFile (rows.foldl (fun acc pr =>
      if pr.2 = "add" ∨ pr.2 = "modify" then acc.removeFile pr.1 else acc) d) p = false := by
  induction rows generalizing d with
  | nil => exact h
  | cons pr rest ih =>
    rw [List.foldl_cons]
    apply ih
    by_cases hc : pr.2 = "add" ∨ pr.2 = "modify"
    · simp only [if_pos hc]
      exact hasFile_filter_sub h
    · simp only [if_neg hc]
      exact h

/-- The post-commit removal pass removes every add/modify path it is given. -/
theorem foldl_remove_removes (rows : List (String × String)) (d : Disk) (p a : String)
    (hmem : (p, a) ∈ rows) (ha : a = "add" ∨ a = "modify") :
    Disk.hasFile (rows.foldl (fun acc pr =>
      if pr.2 = "add" ∨ pr.2 = "modify" then acc.removeFile pr.1 else acc) d) p = false := by
  induction rows generalizing d with
  | nil => cases hmem
  | cons pr rest ih =>
    rw [List.foldl_cons]
    rcases List.mem_cons.mp hmem with heq | hmem'
    · rw [← heq]
      simp only [if_pos ha]
      exact foldl_remove_preserves_absent rest _ p (hasFile_removeFile d p)
    · exact ih _ hmem'

/-- The applied-status update preserves ids. -/
theorem applyStatusFn_id (rId now : Nat) (c : Changeset) :
    ((fun c : Changeset => if c.id = rId then
        { c with status := ChangesetStatus.applied, appliedAt := some now } else c) c).id = c.id := by
  simp only []
  split <;> rfl

/-- The rolled-back-status update preserves ids. -/
theorem rolledBackFn_id (csId now rId : Nat) (c : Changeset) :
    ((fun c : Changeset => if c.id = csId then
        { c with
          status := ChangesetStatus.rolledBack
          rolledBackAt := some now
          reversedBy := some rId }
      else c) c).id = c.id := by
  simp only []
  split <;> rfl

/-- find? by id commutes with an id-preserving map. -/
theorem find?_map_id_pres (F : Changeset → Changeset) (hid : ∀ c, (F c).id = c.id)
    (l : List Changeset) (k : Nat) :
    (l.map F).find? (fun c => c.id = k) = (l.find? (fun c => c.id = k)).map F := by
  rw [List.find?_map]
  have hfun : ((fun c : Changeset => decide (c.id = k)) ∘ F) =
      (fun c : Changeset => decide (c.id = k)) := by
    funext c
    simp [Function.comp, hid]
  rw [hfun]

/-- What the rollback transaction does to the catalog: the rollback
changeset is findable and applied, no trove installed by the reversed
changeset survives (nor do their files or dependency rows), and the reversed
changeset is marked rolled back, stamped, and linked to the rollback
changeset. -/
theorem rollbackTx_spec (cat : Catalog) (c0 : Changeset) (csId now : Nat)
    (hfresh : ∀ c ∈ cat.changesets, c.id < cat.nextChangesetId)
    (hfind : cat.findChangesetById csId = some c0) :
    (rollbackTx cat c0 csId now).findChangesetById cat.nextChangesetId = some
      { id := cat.nextChangesetId,
        description := "Rollback of changeset " ++ toString csId ++ " (" ++ c0.description ++ ")",
        status := .applied, createdAt := some now, appliedAt := some now } ∧
    (∀ t ∈ (rollbackTx cat c0 csId now).troves, t.installedBy ≠ some csId) ∧
    (∀ f ∈ (rollbackTx cat c0 csId now).files, ∀ t ∈ cat.troves,
      t.installedBy = some csId → f.troveId ≠ t.id) ∧
    (∀ d ∈ (rollbackTx cat c0 csId now).deps, ∀ t ∈ cat.troves,
      t.installedBy = some csId → d.troveId ≠ t.id) ∧
    (rollbackTx cat c0 csId now).findChangesetById csId = some
      { c0 with
        status := .rolledBack
        rolledBackAt := some now
        reversedBy := some cat.nextChangesetId } := by
  have hc0mem : c0 ∈ cat.changesets := List.mem_of_find?_eq_some hfind
  have hc0id : c0.id = csId := by
    have hp := List.find?_some hfind
    simpa using hp
  have hcslt : csId < cat.nextChangesetId := hc0id ▸ hfresh c0 hc0mem
  have hcs : (rollbackTx cat c0 csId now).changesets =
      ((cat.changesets ++
        [({ id := cat.nextChangesetId,
            description := "Rollback of changeset " ++ toString csId ++ " (" ++ c0.description ++ ")",
            status := .pending, createdAt := some now } : Changeset)]).map
        (fun c => if c.id = cat.nextChangesetId then
          { c with status := ChangesetStatus.applied, appliedAt := some now } else c)).map
        (fun c => if c.id = csId then
          { c with
            status := ChangesetStatus.rolledBack
            rolledBackAt := some now
            reversedBy := some cat.nextChangesetId }
          else c) := by
    unfold rollbackTx applyChangeset
    simp only []
    rw [foldl_delete_changesets]
  refine ⟨?_, ?_, ?_, ?_, ?_⟩
  · unfold Catalog.findChangesetById
    rw [hcs]
    rw [find?_map_id_pres _ (rolledBackFn_id csId now cat.nextChangesetId)]
    rw [find?_map_id_pres _ (applyStatusFn_id cat.nextChangesetId now)]
    rw [List.find?_append]
    have hnone : cat.changesets.find? (fun c => c.id = cat.nextChangesetId) = none := by
      apply List.find?_eq_none.mpr
      intro x hx
      have := hfresh x hx
      simp only [decide_eq_true_eq]
      omega
    rw [hnone, Option.none_or]
    have hfound : List.find? (fun c : Changeset => c.id = cat.nextChangesetId)
        [({ id := cat.nextChangesetId,
            description := "Rollback of changeset " ++ toString csId ++ " (" ++ c0.description ++ ")",
            status := .pending, createdAt := some now } : Changeset)] =
        some { id := cat.nextChangesetId,
               description := "Rollback of changeset " ++ toString csId ++ " (" ++ c0.description ++ ")",
               status := .pending, createdAt := some now } := by
      apply List.find?_cons_of_pos
      simp
    rw [hfound]
    have hne : ¬(cat.nextChangesetId = csId) := by omega
    simp [hne]
  · intro t ht hinst
    have ht2 : t ∈ ((cat.troves.filter (fun t : Trove => t.installedBy = some csId)).foldl
        (fun (c : Catalog) (q : Trove) => c.deleteTroveCascade q.id)
        { cat with
          changesets := cat.changesets ++
            [({ id := cat.nextChangesetId,
                description := "Rollback of changeset " ++ toString csId ++ " (" ++ c0.description ++ ")",
                status := .pending, createdAt := some now } : Changeset)]
          nextChangesetId := cat.nextChangesetId + 1 }).troves := ht
    obtain ⟨hmem, hids⟩ := mem_foldl_delete_troves _ _ _ ht2
    exact hids t (List.mem_filter.mpr ⟨hmem, by simp [hinst]⟩) rfl
  · intro f hf t ht hinst
    have hf2 : f ∈ ((cat.troves.filter (fun t : Trove => t.installedBy = some csId)).foldl
        (fun (c : Catalog) (q : Trove) => c.deleteTroveCascade q.id)
        { cat with
          changesets := cat.changesets ++
            [({ id := cat.nextChangesetId,
                description := "Rollback of changeset " ++ toString csId ++ " (" ++ c0.description ++ ")",
                status := .pending, createdAt := some now } : Changeset)]
          nextChangesetId := cat.nextChangesetId + 1 }).files := hf
    obtain ⟨hmem, hids⟩ := mem_foldl_delete_files _ _ _ hf2
    exact hids t (List.mem_filter.mpr ⟨ht, by simp [hinst]⟩)
  · intro d hd t ht hinst
    have hd2 : d ∈ ((cat.troves.filter (fun t : Trove => t.installedBy = some csId)).foldl
        (fun (c : Catalog) (q : Trove) => c.deleteTroveCascade q.id)
        { cat with
          changesets := cat.changesets ++
            [({ id := cat.nextChangesetId,
                description := "Rollback of changeset " ++ toString csId ++ " (" ++ c0.description ++ ")",
                status := .pending, createdAt := some now } : Changeset)]
          nextChangesetId := cat.nextChangesetId + 1 }).deps := hd
    obtain ⟨hmem, hids⟩ := mem_foldl_delete_deps _ _ _ hd2
    exact hids t (List.mem_filter.mpr ⟨ht, by simp [hinst]⟩)
  · unfold Catalog.findChangesetById
    rw [hcs]
    rw [find?_map_id_pres _ (rolledBackFn_id csId now cat.nextChangesetId)]
    rw [find?_map_id_pres _ (applyStatusFn_id cat.nextChangesetId now)]
    rw [List.find?_append]
    have hc0find : cat.changesets.find? (fun c : Changeset => c.id = csId) = some c0 := hfind
    rw [hc0find]
    have hne : ¬(c0.id = cat.nextChangesetId) := by omega
    have hne2 : ¬(csId = cat.nextChangesetId) := by omega
    simp [hc0id, hne, hne2]

/-- The post-commit pass removes the path of every add/modify history row of
the reversed changeset. -/
theorem rollbackRemovePaths_removes (hist : List HistoryRow) (csId : Nat) (disk : Disk)
    (r : HistoryRow) (hr : r ∈ hist) (hcs : r.changesetId = csId)
    (ha : r.action = "add" ∨ r.action = "modify") :
    Disk.hasFile (rollbackRemovePaths hist csId disk) r.path = false := by
  unfold rollbackRemovePaths
  apply foldl_remove_removes _ _ r.path r.action _ ha
  apply List.mem_map.mpr
  exact ⟨r, List.mem_filter.mpr ⟨hr, by simp [hcs]⟩, rfl⟩

/-- Claim C4: rollback succeeds exactly when the changeset exists, is in
state applied, and installed at least one trove; every failure leaves
catalog and disk unchanged; success inserts the applied "Rollback of
changeset C" changeset under the next id, deletes every trove installed by C
together with its files and dependency rows, updates C to rolled_back with
`rolled_back_at` stamped and `reversed_by` pointing at the rollback
changeset, and removes from disk every path whose history row for C has
action add or modify.  (`hfresh` is the auto-increment invariant: every
stored changeset id is below the next id.) -/
theorem rollback_contract (cat : Catalog) (disk : Disk) (csId now : Nat)
    (hfresh : ∀ c ∈ cat.changesets, c.id < cat.nextChangesetId) :
    ((runRollback cat disk csId now).1.isOk = rollbackPrecond cat csId) ∧
    (∀ e cat' disk', runRollback cat disk csId now = (.error e, cat', disk') →
      cat' = cat ∧ disk' = disk) ∧
    (∀ cat' disk', runRollback cat disk csId now = (.ok (), cat', disk') →
      ∃ c0, cat.findChangesetById csId = some c0 ∧ c0.status = .applied ∧
        cat'.findChangesetById cat.nextChangesetId = some
          { id := cat.nextChangesetId,
            description := "Rollback of changeset " ++ toString csId ++ " (" ++ c0.description ++ ")",
            status := .applied, createdAt := some now, appliedAt := some now } ∧
        (∀ t ∈ cat'.troves, t.installedBy ≠ some csId) ∧
        (∀ f ∈ cat'.files, ∀ t ∈ cat.troves, t.installedBy = some csId → f.troveId ≠ t.id) ∧
        (∀ d ∈ cat'.deps, ∀ t ∈ cat.troves, t.installedBy = some csId → d.troveId ≠ t.id) ∧
        cat'.findChangesetById csId = some
          { c0 with
            status := .rolledBack
            rolledBackAt := some now
            reversedBy := some cat.nextChangesetId } ∧
        (∀ r ∈ cat.fileHistory, r.changesetId = csId →
          (r.action = "add" ∨ r.action = "modify") →
          Disk.hasFile disk' r.path = false)) := by
  cases hfind : cat.findChangesetById csId with
  | none =>
    have hrun : runRollback cat disk csId now = (.error (.changesetNotFound csId), cat, disk) := by
      unfold runRollback
      rw [hfind]
    refine ⟨?_, ?_, ?_⟩
    · rw [hrun]
      unfold rollbackPrecond
      rw [hfind]
      rfl
    · intro e cat' disk' heq
      rw [hrun] at heq
      injection heq with h1 h2
      injection h2 with h2 h3
      exact ⟨h2.symm, h3.symm⟩
    · intro cat' disk' heq
      rw [hrun] at heq
      simp at heq
  | some c0 =>
    cases hst : c0.status with
    | rolledBack =>
      have hrun : runRollback cat disk csId now =
          (.error (.alreadyRolledBack csId), cat, disk) := by
        unfold runRollback
        rw [hfind]
        simp only []
        rw [hst]
        all_goals rfl
      refine ⟨?_, ?_, ?_⟩
      · rw [hrun]
        unfold rollbackPrecond
        rw [hfind]
        simp only []
        rw [hst]
        all_goals rfl
      · intro e cat' disk' heq
        rw [hrun] at heq
        injection heq with h1 h2
        injection h2 with h2 h3
        exact ⟨h2.symm, h3.symm⟩
      · intro cat' disk' heq
        rw [hrun] at heq
        simp at heq
    | pending =>
      have hrun : runRollback cat disk csId now =
          (.error (.pendingChangeset csId), cat, disk) := by
        unfold runRollback
        rw [hfind]
        simp only []
        rw [hst]
        all_goals rfl
      refine ⟨?_, ?_, ?_⟩
      · rw [hrun]
        unfold rollbackPrecond
        rw [hfind]
        simp only []
        rw [hst]
        all_goals rfl
      · intro e cat' disk' heq
        rw [hrun] at heq
        injection heq with h1 h2
        injection h2 with h2 h3
        exact ⟨h2.symm, h3.symm⟩
      · intro cat' disk' heq
        rw [hrun] at heq
        simp at heq
    | applied =>
      cases hemp : (cat.troves.filter (·.installedBy = some csId)).isEmpty with
      | true =>
        have hrun : runRollback cat disk csId now =
            (.error .noTrovesForChangeset, cat, disk) := by
          unfold runRollback
          rw [hfind]
          simp only []
          rw [hst, hemp]
          all_goals rfl
        refine ⟨?_, ?_, ?_⟩
        · rw [hrun]
          unfold rollbackPrecond
          rw [hfind]
          simp only []
          rw [hst, hemp]
          all_goals rfl
        · intro e cat' disk' heq
          rw [hrun] at heq
          injection heq with h1 h2
          injection h2 with h2 h3
          exact ⟨h2.symm, h3.symm⟩
        · intro cat' disk' heq
          rw [hrun] at heq
          simp at heq
      | false =>
        have hrun : runRollback cat disk csId now =
            (.ok (), rollbackTx cat c0 csId now,
             rollbackRemovePaths cat.fileHistory csId disk) := by
          unfold runRollback
          rw [hfind]
          simp only []
          rw [hst, hemp]
          all_goals rfl
        refine ⟨?_, ?_, ?_⟩
        · rw [hrun]
          unfold rollbackPrecond
          rw [hfind]
          simp only []
          rw [hst, hemp]
          all_goals rfl
        · intro e cat' disk' heq
          rw [hrun] at heq
          simp at heq
        · intro cat' disk' heq
          rw [hrun] at heq
          injection heq with h1 h2
          injection h2 with h2 h3
          obtain ⟨hR, hT, hF, hD, hC⟩ := rollbackTx_spec cat c0 csId now hfresh hfind
          subst h2
          subst h3
          exact ⟨c0, rfl, hst, hR, hT, hF, hD, hC, fun r hr hcs ha =>
            rollbackRemovePaths_removes cat.fileHistory csId disk r hr hcs ha⟩

/-- Witness for `rollback_contract` at the S1 state: rolling back changeset
1 is possible exactly as the precondition computes. -/
theorem rollback_contract_witness :
    (runRollback s1Cat s1Disk 1 5).1.isOk = rollbackPrecond s1Cat 1 :=
  (rollback_contract s1Cat s1Disk 1 5 (by decide)).1

end Conary
